import Mathlib

/-!
Shallow embedding of the flat-file JSON record store (`database.js`) of the
beauty-salon backend, together with proofs about its CRUD operations.

JavaScript values that can appear in a record field are modelled by `Value`;
a record (a JS object) is an ordered association list of field names to
values, mirroring JS property insertion order; a table file on disk either
does not exist, holds unparsable / non-array content, or holds a JSON array
of records; the data directory is a map from table name to file content.
All clock reads (`Date.now()`, `new Date().toISOString()`) are passed in
explicitly as the millisecond count `now`.
-/

/-- Decimal digit character for `d < 10` (mirrors JS number rendering). -/
def digitChar (d : Nat) : Char := Char.ofNat (48 + d)

/-- Decimal rendering worker, structurally recursive on a fuel bound. -/
def natToCharsAux : Nat → Nat → List Char
  | 0, _ => []
  | fuel + 1, n =>
    if n < 10 then [digitChar n]
    else natToCharsAux fuel (n / 10) ++ [digitChar (n % 10)]

/-- Decimal rendering of a natural number, most significant digit first
(mirrors JS `String(n)` / the decimal form produced by `JSON.stringify`). -/
def natToChars (n : Nat) : List Char := natToCharsAux (n + 1) n

def natToStr (n : Nat) : String := String.mk (natToChars n)

/-- Parse a decimal digit character. -/
def charToDigit (c : Char) : Option Nat :=
  if 48 ≤ c.toNat ∧ c.toNat ≤ 57 then some (c.toNat - 48) else none

/-- Accumulating decimal parse of a character list. -/
def charsToNat : List Char → Nat → Option Nat
  | [], acc => some acc
  | c :: cs, acc =>
    match charToDigit c with
    | some d => charsToNat cs (acc * 10 + d)
    | none => none

/-- JS `ToNumber` restricted to the shapes that occur in this store
(non-negative decimal numerals; `""` coerces to `0` as in JS). -/
def strToNat (s : String) : Option Nat := charsToNat s.data 0

/-- A JSON-compatible field value as stored by the record store. -/
inductive Value where
  | vNum (n : Nat)
  | vStr (s : String)
  | vBool (b : Bool)
  | vNull
deriving DecidableEq, Repr

/-- JS loose equality `==` restricted to the value shapes the store
compares (ids are numbers or numeric strings): a number and a string are
compared by coercing the string to a number. -/
def looseEq : Value → Value → Bool
  | .vNum a, .vNum b => a == b
  | .vStr a, .vStr b => a == b
  | .vNum a, .vStr s => strToNat s == some a
  | .vStr s, .vNum a => strToNat s == some a
  | .vBool a, .vBool b => a == b
  | .vNull, .vNull => true
  | _, _ => false

/-- A record: a JS object, i.e. an ordered list of (field, value) pairs.
JS objects never hold two properties with the same name; lists with
duplicate keys are model artifacts ruled out by `noDupKeys` where it
matters. -/
abbrev Record := List (String × Value)

/-- JS property read `r[k]`: first (hence, for a real object, only) entry. -/
def getField (r : Record) (k : String) : Option Value :=
  (r.find? (fun p => p.1 == k)).map (·.2)

/-- JS property write `r[k] = v`: overwrite in place if the key exists,
otherwise append (JS property insertion order). -/
def setField (r : Record) (k : String) (v : Value) : Record :=
  if r.any (fun p => p.1 == k) then
    r.map (fun p => if p.1 == k then (k, v) else p)
  else
    r ++ [(k, v)]

/-- JS object spread `{...a, ...b}`: apply every property of `b` to `a`
in order. -/
def mergeFields (a b : Record) : Record :=
  b.foldl (fun acc p => setField acc p.1 p.2) a

/-- A real JS object has no duplicate property names. -/
def noDupKeys (r : Record) : Prop := (r.map Prod.fst).Nodup

/-- The seven table names wired into `dbFiles`. -/
inductive Table where
  | admins | products | services | bookings | gallery | videos | profiles
deriving DecidableEq, Repr, Fintype

/-- Content of one table's backing file. -/
inductive FileContent where
  /-- the file does not exist (`fs.existsSync` is false) -/
  | missing
  /-- the file exists but `readJsonSync` fails on it (malformed JSON) -/
  | corrupt
  /-- the file holds a JSON array of records -/
  | table (rows : List Record)
deriving DecidableEq, Repr

/-- The data directory: one backing file per table. -/
def FS := Table → FileContent

instance : DecidableEq FS := fun f g =>
  decidable_of_iff (∀ t, f t = g t) funext_iff.symm

/-- `fs.readJsonSync` on a table file: the parsed array, or a thrown error. -/
def readJsonSync : FileContent → Except String (List Record)
  | .missing => .error "ENOENT"
  | .corrupt => .error "SyntaxError"
  | .table rows => .ok rows

/-- `db.read`: `try { return fs.readJsonSync(dbFiles[table]) } catch { return [] }`. -/
def dbRead (fs : FS) (t : Table) : List Record :=
  match readJsonSync (fs t) with
  | .ok data => data
  | .error _ => []

/-- `db.write`: `fs.writeJsonSync(dbFiles[table], data)` — overwrite the file. -/
def dbWrite (fs : FS) (t : Table) (data : List Record) : FS :=
  fun u => if u = t then .table data else fs u

/-- `new Date(now).toISOString()` — the ISO-8601 rendering is produced by the
JS `Date` library, external to the repository; it is modelled abstractly as an
injective rendering of the millisecond clock. -/
def toISOString (now : Nat) : String := "1970-01-01T+" ++ natToStr now ++ "ms"

/-- `db.insert`: set `record.id = Date.now()` and `record.created_at` to the
current ISO timestamp, append to the rows obtained from `read`, write, and
return the enriched record. -/
def dbInsert (fs : FS) (t : Table) (record : Record) (now : Nat) : FS × Record :=
  let data := dbRead fs t
  let record := setField record "id" (.vNum now)
  let record := setField record "created_at" (.vStr (toISOString now))
  (dbWrite fs t (data ++ [record]), record)

/-- `item.id == id` — the loose-equality test used by `findById`, `update`
and `delete`; a record with no `id` property matches nothing (JS
`undefined == n` is false for a number or string `n`). -/
def idMatches (item : Record) (id : Value) : Bool :=
  match getField item "id" with
  | some v => looseEq v id
  | none => false

/-- `db.findById`: `data.find(item => item.id == id)`. -/
def dbFindById (fs : FS) (t : Table) (id : Value) : Option Record :=
  (dbRead fs t).find? (fun item => idMatches item id)

/-- The linear scan of `db.update`: replace the first record whose id
loosely matches with `{ ...item, ...updates, updated_at: ts }`, returning
the new rows and the merged record (`findIndex` + in-place assignment). -/
def updateList (rows : List Record) (id : Value) (updates : Record) (ts : String) :
    Option (List Record × Record) :=
  match rows with
  | [] => none
  | r :: rest =>
    if idMatches r id then
      let merged := setField (mergeFields r updates) "updated_at" (.vStr ts)
      some (merged :: rest, merged)
    else
      match updateList rest id updates ts with
      | some (rest', m) => some (r :: rest', m)
      | none => none

/-- `db.update`: on a match, persist the table and return the merged record;
when no id matches (`findIndex` gives `-1`), return `null` without writing. -/
def dbUpdate (fs : FS) (t : Table) (id : Value) (updates : Record) (now : Nat) :
    FS × Option Record :=
  match updateList (dbRead fs t) id updates (toISOString now) with
  | some (rows, merged) => (dbWrite fs t rows, some merged)
  | none => (fs, none)

/-- The linear scan of `db.delete`: `splice` out the first record whose id
loosely matches (`findIndex` + `splice(index, 1)`). -/
def deleteFirst (rows : List Record) (id : Value) : Option (List Record) :=
  match rows with
  | [] => none
  | r :: rest =>
    if idMatches r id then some rest
    else (deleteFirst rest id).map (fun rest' => r :: rest')

/-- `db.delete`: on a match, persist the shortened table and return `true`;
when no id matches, return `false` without writing. -/
def dbDelete (fs : FS) (t : Table) (id : Value) : FS × Bool :=
  match deleteFirst (dbRead fs t) id with
  | some rows => (dbWrite fs t rows, true)
  | none => (fs, false)

/-- The bootstrap step run once at require time: for every file in
`dbFiles`, if it does not exist, create it holding `[]`. -/
def initFile : FileContent → FileContent
  | .missing => .table []
  | c => c

def initDB (fs : FS) : FS := fun t => initFile (fs t)

/-- A fresh storage location: no table file exists yet. -/
def freshFS : FS := fun _ => .missing

/-- Every table file holds a JSON array (possibly empty). -/
def allArrays (fs : FS) : Prop := ∀ t, ∃ rows, fs t = .table rows

/-! ### Field access lemmas -/

theorem getField_cons (p : String × Value) (r : Record) (k : String) :
    getField (p :: r) k = if p.1 == k then some p.2 else getField r k := by
  cases h : (p.1 == k) <;> simp [getField, List.find?, h]

theorem getField_eq_none_iff (r : Record) (k : String) :
    getField r k = none ↔ r.any (fun p => p.1 == k) = false := by
  induction r with
  | nil => simp [getField]
  | cons p rest ih =>
    cases h : (p.1 == k) <;> simp [getField_cons, h, ih]

theorem getField_map_set_same (r : Record) (k : String) (v : Value)
    (h : getField r k ≠ none) :
    getField (r.map (fun p => if p.1 == k then (k, v) else p)) k = some v := by
  induction r with
  | nil => simp [getField] at h
  | cons p rest ih =>
    by_cases hp : p.1 = k
    · simp [getField_cons, hp]
    · rw [getField_cons] at h
      simp only [hp, beq_iff_eq, if_neg, not_false_iff] at h
      simpa [getField_cons, hp] using ih h

theorem getField_map_set_other (r : Record) (k k' : String) (v : Value)
    (h : k' ≠ k) :
    getField (r.map (fun p => if p.1 == k then (k, v) else p)) k' = getField r k' := by
  induction r with
  | nil => rfl
  | cons p rest ih =>
    by_cases hp : p.1 = k
    · have hkk : (k == k') = false := by simpa using fun e => h e.symm
      simpa [getField_cons, hp, hkk] using ih
    · have ih2 := ih
      simp only [beq_iff_eq] at ih2 ⊢
      simp [getField_cons, hp, ih2]

theorem getField_append_single_same (r : Record) (k : String) (v : Value)
    (h : getField r k = none) :
    getField (r ++ [(k, v)]) k = some v := by
  induction r with
  | nil => simp [getField_cons, getField]
  | cons p rest ih =>
    rw [getField_cons] at h
    cases hp : (p.1 == k) with
    | true => simp [hp] at h
    | false =>
      rw [hp] at h
      simp only [if_neg, Bool.false_eq_true, not_false_iff] at h
      simp [getField_cons, hp, ih h]

theorem getField_append_single_other (r : Record) (k k' : String) (v : Value)
    (h : k' ≠ k) :
    getField (r ++ [(k, v)]) k' = getField r k' := by
  have hkk : (k == k') = false := by simpa using fun e => h e.symm
  induction r with
  | nil => simp [getField_cons, getField, hkk]
  | cons p rest ih =>
    simp only [List.cons_append, getField_cons, ih]

theorem getField_setField_same (r : Record) (k : String) (v : Value) :
    getField (setField r k v) k = some v := by
  unfold setField
  by_cases hany : r.any (fun p => p.1 == k)
  · rw [if_pos hany]
    apply getField_map_set_same
    rw [Ne, getField_eq_none_iff]
    simp [hany]
  · rw [if_neg hany]
    apply getField_append_single_same
    rw [getField_eq_none_iff]
    exact Bool.not_eq_true _ ▸ hany

theorem getField_setField_other (r : Record) (k k' : String) (v : Value)
    (h : k' ≠ k) :
    getField (setField r k v) k' = getField r k' := by
  unfold setField
  by_cases hany : r.any (fun p => p.1 == k)
  · rw [if_pos hany]
    exact getField_map_set_other r k k' v h
  · rw [if_neg hany]
    exact getField_append_single_other r k k' v h

/-! ### Merge lemmas -/

theorem getField_mergeFields_of_none (a b : Record) (k : String)
    (h : getField b k = none) :
    getField (mergeFields a b) k = getField a k := by
  induction b generalizing a with
  | nil => rfl
  | cons p rest ih =>
    rw [getField_cons] at h
    cases hp : (p.1 == k) with
    | true => simp [hp] at h
    | false =>
      rw [hp] at h
      simp only [if_neg, Bool.false_eq_true, not_false_iff] at h
      have hne : k ≠ p.1 := by
        intro e
        simp [e] at hp
      calc getField (mergeFields (setField a p.1 p.2) rest) k
          = getField (setField a p.1 p.2) k := ih (setField a p.1 p.2) h
        _ = getField a k := getField_setField_other a p.1 k p.2 hne

theorem getField_mergeFields_of_some (a b : Record) (k : String) (v : Value)
    (hb : noDupKeys b) (h : getField b k = some v) :
    getField (mergeFields a b) k = some v := by
  induction b generalizing a with
  | nil => simp [getField] at h
  | cons p rest ih =>
    rw [getField_cons] at h
    cases hp : (p.1 == k) with
    | true =>
      rw [hp] at h
      simp only [if_pos] at h
      have hpk : p.1 = k := by simpa using hp
      have hrest : getField rest k = none := by
        rw [getField_eq_none_iff]
        simp only [noDupKeys, List.map_cons, List.nodup_cons] at hb
        rw [List.any_eq_false]
        intro q hq
        have : q.1 ∈ rest.map Prod.fst := List.mem_map_of_mem Prod.fst hq
        simp only [beq_iff_eq]
        intro e
        exact hb.1 (by rw [hpk, ← e]; exact this)
      show getField (mergeFields (setField a p.1 p.2) rest) k = some v
      rw [getField_mergeFields_of_none _ _ _ hrest, hpk, getField_setField_same]
      exact h
    | false =>
      rw [hp] at h
      simp only [if_neg, Bool.false_eq_true, not_false_iff] at h
      have hb' : noDupKeys rest := by
        simp only [noDupKeys, List.map_cons, List.nodup_cons] at hb
        exact hb.2
      exact ih (setField a p.1 p.2) hb' h

/-! ### Read / write lemmas -/

theorem dbRead_dbWrite_self (fs : FS) (t : Table) (rows : List Record) :
    dbRead (dbWrite fs t rows) t = rows := by
  simp [dbRead, dbWrite, readJsonSync]

theorem dbRead_dbWrite_other (fs : FS) (t u : Table) (rows : List Record)
    (h : u ≠ t) :
    dbRead (dbWrite fs t rows) u = dbRead fs u := by
  simp [dbRead, dbWrite, h]

/-! ### Decimal round-trip: parsing the rendering of a number gives it back -/

theorem charToDigit_digitChar (d : Nat) (h : d < 10) :
    charToDigit (digitChar d) = some d := by
  interval_cases d <;> decide

theorem charsToNat_append (l1 l2 : List Char) (acc : Nat) :
    charsToNat (l1 ++ l2) acc =
      match charsToNat l1 acc with
      | some a => charsToNat l2 a
      | none => none := by
  induction l1 generalizing acc with
  | nil => rfl
  | cons c cs ih =>
    cases hc : charToDigit c <;> simp [charsToNat, hc, ih]

theorem charsToNat_natToCharsAux (fuel : Nat) :
    ∀ n, n < fuel → ∀ acc : Nat,
      charsToNat (natToCharsAux fuel n) acc
        = some (acc * 10 ^ (natToCharsAux fuel n).length + n) := by
  induction fuel with
  | zero => omega
  | succ fuel ih =>
    intro n hn acc
    by_cases h10 : n < 10
    · simp [natToCharsAux, if_pos h10, charsToNat, charToDigit_digitChar n h10]
    · have hlt : n / 10 < fuel := by
        have : n / 10 < n := Nat.div_lt_self (by omega) (by omega)
        omega
      have hmod : n % 10 < 10 := Nat.mod_lt n (by omega)
      simp only [natToCharsAux, if_neg h10]
      rw [charsToNat_append, ih (n / 10) hlt acc]
      have key : ∀ L : Nat,
          (acc * 10 ^ L + n / 10) * 10 + n % 10 = acc * 10 ^ (L + 1) + n := by
        intro L
        calc (acc * 10 ^ L + n / 10) * 10 + n % 10
            = acc * (10 ^ L * 10) + (10 * (n / 10) + n % 10) := by ring
          _ = acc * 10 ^ (L + 1) + n := by rw [← pow_succ, Nat.div_add_mod]
      simp [charsToNat, charToDigit_digitChar (n % 10) hmod, key]

theorem strToNat_natToStr (n : Nat) : strToNat (natToStr n) = some n := by
  have h := charsToNat_natToCharsAux (n + 1) n (Nat.lt_succ_self n) 0
  show charsToNat (natToCharsAux (n + 1) n) 0 = some n
  simpa using h

/-- A number and its decimal string rendering are loosely equal (JS `n == String(n)`). -/
theorem looseEq_num_str (n : Nat) : looseEq (.vNum n) (.vStr (natToStr n)) = true := by
  simp [looseEq, strToNat_natToStr]

/-! ### Linear-scan lemmas -/

theorem deleteFirst_eq_none_iff (rows : List Record) (id : Value) :
    deleteFirst rows id = none ↔ ∀ r ∈ rows, idMatches r id = false := by
  induction rows with
  | nil => simp [deleteFirst]
  | cons r rest ih =>
    cases h : idMatches r id <;> simp [deleteFirst, h, ih]

theorem deleteFirst_length (rows : List Record) (id : Value) (rows' : List Record)
    (h : deleteFirst rows id = some rows') :
    rows'.length + 1 = rows.length := by
  induction rows generalizing rows' with
  | nil => simp [deleteFirst] at h
  | cons r rest ih =>
    by_cases hm : idMatches r id
    · simp only [deleteFirst, if_pos hm, Option.some.injEq] at h
      simp [← h]
    · simp only [deleteFirst, if_neg hm, Option.map_eq_some'] at h
      obtain ⟨rest', hrest, hcons⟩ := h
      simp [← hcons, ← ih rest' hrest]

theorem deleteFirst_append (pre : List Record) (r : Record) (post : List Record)
    (id : Value) (hpre : ∀ x ∈ pre, idMatches x id = false)
    (hr : idMatches r id = true) :
    deleteFirst (pre ++ r :: post) id = some (pre ++ post) := by
  induction pre with
  | nil => simp [deleteFirst, hr]
  | cons x xs ih =>
    have hx := hpre x (List.mem_cons_self x xs)
    simp [deleteFirst, hx, ih (fun y hy => hpre y (List.mem_cons_of_mem x hy))]

theorem updateList_append (pre : List Record) (r : Record) (post : List Record)
    (id : Value) (updates : Record) (ts : String)
    (hpre : ∀ x ∈ pre, idMatches x id = false) (hr : idMatches r id = true) :
    updateList (pre ++ r :: post) id updates ts
      = some (pre ++ setField (mergeFields r updates) "updated_at" (.vStr ts) :: post,
              setField (mergeFields r updates) "updated_at" (.vStr ts)) := by
  induction pre with
  | nil => simp [updateList, hr]
  | cons x xs ih =>
    have hx := hpre x (List.mem_cons_self x xs)
    simp [updateList, hx, ih (fun y hy => hpre y (List.mem_cons_of_mem x hy))]

theorem find?_pred_eq {α : Type} (l : List α) (p q : α → Bool)
    (h : ∀ x ∈ l, p x = q x) :
    l.find? p = l.find? q := by
  induction l with
  | nil => rfl
  | cons a as ih =>
    have ha := h a (List.mem_cons_self a as)
    have ih' := ih (fun y hy => h y (List.mem_cons_of_mem a hy))
    cases hq : q a with
    | true => simp [List.find?_cons, ha, hq]
    | false => simp [List.find?_cons, ha, hq, ih']

/-! ### Claim theorems -/

/-- C2: `read` returns the parsed JSON array of the table's file when
parsing succeeds, and returns the empty sequence (rather than propagating
an error) on any parse or I/O failure, including a missing file or
malformed JSON. -/
theorem read_parsed_or_empty (fs : FS) (t : Table) :
    (∀ rows, readJsonSync (fs t) = .ok rows → dbRead fs t = rows)
    ∧ (∀ e, readJsonSync (fs t) = .error e → dbRead fs t = [])
    ∧ (fs t = .missing → dbRead fs t = [])
    ∧ (fs t = .corrupt → dbRead fs t = []) := by
  refine ⟨fun rows h => ?_, fun e h => ?_, fun h => ?_, fun h => ?_⟩
  · simp [dbRead, h]
  · simp [dbRead, h]
  · simp [dbRead, h, readJsonSync]
  · simp [dbRead, h, readJsonSync]

/-- Witness for C2 at concrete file states: a written array reads back,
a missing file and a corrupt file both read as empty. -/
theorem read_parsed_or_empty_witness :
    dbRead (dbWrite freshFS .products [[("id", Value.vNum 1)]]) .products
        = [[("id", Value.vNum 1)]]
    ∧ dbRead freshFS .admins = []
    ∧ dbRead (fun _ => FileContent.corrupt) .gallery = [] :=
  ⟨(read_parsed_or_empty _ .products).1 _ rfl,
   (read_parsed_or_empty _ .admins).2.2.1 rfl,
   (read_parsed_or_empty _ .gallery).2.2.2 rfl⟩

/-- C1 (counterexample): the round-trip claim promises that every
caller-supplied field other than `id` is preserved unchanged, but `insert`
also overwrites a caller-supplied `created_at` field with its own
timestamp. -/
theorem insert_roundtrip_counterexample :
    getField (dbInsert (initDB freshFS) .products
        [("created_at", Value.vStr "X")] 0).2 "created_at"
      ≠ some (Value.vStr "X") := by decide

/-- C1 (amended): inserting a record and then reading the table yields a
sequence whose last element equals the input record plus an `id` field and
a `created_at` field populated by the store; all caller-supplied fields
other than `id` and `created_at` are preserved unchanged. -/
theorem insert_roundtrip (fs : FS) (t : Table) (record : Record) (now : Nat) :
    (dbRead (dbInsert fs t record now).1 t).getLast?
        = some (dbInsert fs t record now).2
    ∧ getField (dbInsert fs t record now).2 "id" = some (.vNum now)
    ∧ getField (dbInsert fs t record now).2 "created_at"
        = some (.vStr (toISOString now))
    ∧ ∀ k, k ≠ "id" → k ≠ "created_at" →
        getField (dbInsert fs t record now).2 k = getField record k := by
  refine ⟨?_, ?_, ?_, fun k hk1 hk2 => ?_⟩
  · simp [dbInsert, dbRead_dbWrite_self]
  · rw [show (dbInsert fs t record now).2
        = setField (setField record "id" (.vNum now)) "created_at"
            (.vStr (toISOString now)) from rfl,
      getField_setField_other _ _ _ _ (by decide), getField_setField_same]
  · exact getField_setField_same _ _ _
  · rw [show (dbInsert fs t record now).2
        = setField (setField record "id" (.vNum now)) "created_at"
            (.vStr (toISOString now)) from rfl,
      getField_setField_other _ _ _ _ hk2, getField_setField_other _ _ _ _ hk1]

/-- Witness for C1 (amended) at a concrete insert. -/
theorem insert_roundtrip_witness :
    getField (dbInsert freshFS .products [("name", Value.vStr "A")] 5).2 "name"
        = some (Value.vStr "A")
    ∧ getField (dbInsert freshFS .products [("name", Value.vStr "A")] 5).2 "id"
        = some (Value.vNum 5) :=
  ⟨((insert_roundtrip freshFS .products [("name", Value.vStr "A")] 5).2.2.2
      "name" (by decide) (by decide)).trans (by decide),
   (insert_roundtrip freshFS .products [("name", Value.vStr "A")] 5).2.1⟩

/-- C6: `insert` assigns `id = now` and `created_at = toISOString now`;
a caller-supplied `id` on the input record is overwritten unconditionally,
so the returned id never equals a caller-chosen id differing from the
clock value. -/
theorem insert_assigns_id (fs : FS) (t : Table) (record : Record) (now : Nat) :
    getField (dbInsert fs t record now).2 "id" = some (.vNum now)
    ∧ getField (dbInsert fs t record now).2 "created_at"
        = some (.vStr (toISOString now))
    ∧ ∀ v : Value, getField record "id" = some v → v ≠ .vNum now →
        getField (dbInsert fs t record now).2 "id" ≠ some v := by
  have hid : getField (dbInsert fs t record now).2 "id" = some (.vNum now) := by
    rw [show (dbInsert fs t record now).2
        = setField (setField record "id" (.vNum now)) "created_at"
            (.vStr (toISOString now)) from rfl,
      getField_setField_other _ _ _ _ (by decide), getField_setField_same]
  refine ⟨hid, getField_setField_same _ _ _, fun v _ hv hcontra => ?_⟩
  rw [hid] at hcontra
  exact hv (Option.some.inj hcontra).symm

/-- Witness for C6: a caller-chosen id 999 is overwritten by the clock
value 5. -/
theorem insert_assigns_id_witness :
    getField (dbInsert freshFS .products [("id", Value.vNum 999)] 5).2 "id"
        = some (Value.vNum 5)
    ∧ getField (dbInsert freshFS .products [("id", Value.vNum 999)] 5).2 "id"
        ≠ some (Value.vNum 999) :=
  ⟨(insert_assigns_id freshFS .products [("id", Value.vNum 999)] 5).1,
   (insert_assigns_id freshFS .products [("id", Value.vNum 999)] 5).2.2
     (Value.vNum 999) (by decide) (by decide)⟩

/-- C3: for a table holding the record `{id:1, name:"A", price:10}`,
`update(table, 1, {price: 20})` stores and returns
`{id:1, name:"A", price:20, updated_at: <fresh timestamp>}` — fields
absent from the partial update are preserved, not dropped. -/
theorem update_merge (fs : FS) (t : Table) (now : Nat)
    (h : dbRead fs t
      = [[("id", Value.vNum 1), ("name", Value.vStr "A"), ("price", Value.vNum 10)]]) :
    (dbUpdate fs t (Value.vNum 1) [("price", Value.vNum 20)] now).2
        = some [("id", Value.vNum 1), ("name", Value.vStr "A"),
                ("price", Value.vNum 20),
                ("updated_at", Value.vStr (toISOString now))]
    ∧ dbRead (dbUpdate fs t (Value.vNum 1) [("price", Value.vNum 20)] now).1 t
        = [[("id", Value.vNum 1), ("name", Value.vStr "A"),
            ("price", Value.vNum 20),
            ("updated_at", Value.vStr (toISOString now))]] := by
  have hu : updateList (dbRead fs t) (Value.vNum 1) [("price", Value.vNum 20)]
      (toISOString now)
      = some ([[("id", Value.vNum 1), ("name", Value.vStr "A"),
                ("price", Value.vNum 20),
                ("updated_at", Value.vStr (toISOString now))]],
              [("id", Value.vNum 1), ("name", Value.vStr "A"),
               ("price", Value.vNum 20),
               ("updated_at", Value.vStr (toISOString now))]) := by
    rw [h]
    rfl
  constructor
  · simp [dbUpdate, hu]
  · simp [dbUpdate, hu, dbRead_dbWrite_self]

/-- Witness for C3 at a concrete table state and clock. -/
theorem update_merge_witness :
    (dbUpdate (dbWrite freshFS .products
        [[("id", Value.vNum 1), ("name", Value.vStr "A"), ("price", Value.vNum 10)]])
        .products (Value.vNum 1) [("price", Value.vNum 20)] 3).2
      = some [("id", Value.vNum 1), ("name", Value.vStr "A"),
              ("price", Value.vNum 20),
              ("updated_at", Value.vStr (toISOString 3))] :=
  (update_merge (dbWrite freshFS .products
      [[("id", Value.vNum 1), ("name", Value.vStr "A"), ("price", Value.vNum 10)]])
      .products 3 (by decide)).1

/-- C4: deleting an id present exactly once reduces the table length by
exactly 1 and returns `true`; deleting an absent id returns `false` and
leaves the whole store state (hence the table's length and contents)
unchanged. -/
theorem delete_removes_exactly_one (fs : FS) (t : Table) (id : Value) :
    ((dbRead fs t).countP (fun r => idMatches r id) = 1 →
      (dbDelete fs t id).2 = true
      ∧ (dbRead (dbDelete fs t id).1 t).length + 1 = (dbRead fs t).length)
    ∧ ((dbRead fs t).countP (fun r => idMatches r id) = 0 →
      (dbDelete fs t id).2 = false ∧ (dbDelete fs t id).1 = fs) := by
  constructor
  · intro h1
    cases hd : deleteFirst (dbRead fs t) id with
    | none =>
      exfalso
      rw [deleteFirst_eq_none_iff] at hd
      have h0 : (dbRead fs t).countP (fun r => idMatches r id) = 0 := by
        rw [List.countP_eq_zero]
        intro r hr
        simp [hd r hr]
      omega
    | some rows =>
      refine ⟨by simp [dbDelete, hd], ?_⟩
      simp [dbDelete, hd, dbRead_dbWrite_self, deleteFirst_length _ _ _ hd]
  · intro h0
    have hd : deleteFirst (dbRead fs t) id = none := by
      rw [deleteFirst_eq_none_iff]
      intro r hr
      have := List.countP_eq_zero.mp h0 r hr
      simpa using this
    simp [dbDelete, hd]

/-- Witness for C4: a present id (1) and an absent id (2) on a one-record
table. -/
theorem delete_removes_exactly_one_witness :
    ((dbDelete (dbWrite freshFS .products [[("id", Value.vNum 1)]]) .products
        (Value.vNum 1)).2 = true
      ∧ (dbRead (dbDelete (dbWrite freshFS .products [[("id", Value.vNum 1)]])
          .products (Value.vNum 1)).1 .products).length + 1
        = (dbRead (dbWrite freshFS .products [[("id", Value.vNum 1)]]) .products).length)
    ∧ ((dbDelete (dbWrite freshFS .products [[("id", Value.vNum 1)]]) .products
        (Value.vNum 2)).2 = false
      ∧ (dbDelete (dbWrite freshFS .products [[("id", Value.vNum 1)]]) .products
          (Value.vNum 2)).1
        = dbWrite freshFS .products [[("id", Value.vNum 1)]]) :=
  ⟨(delete_removes_exactly_one
      (dbWrite freshFS .products [[("id", Value.vNum 1)]]) .products
      (Value.vNum 1)).1 (by decide),
   (delete_removes_exactly_one
      (dbWrite freshFS .products [[("id", Value.vNum 1)]]) .products
      (Value.vNum 2)).2 (by decide)⟩

/-- C5: id comparison is type-loose: after an insert produced numeric id
42 into a table whose records carry numeric ids, `findById(table, 42)`
and `findById(table, "42")` return the same record; in general a number
and its decimal string rendering are loosely equal. -/
theorem findById_loose_equality :
    (∀ (fs : FS) (t : Table) (record : Record),
      (∀ r ∈ dbRead fs t, ∃ m : Nat, getField r "id" = some (.vNum m)) →
      dbFindById (dbInsert fs t record 42).1 t (.vNum 42)
        = dbFindById (dbInsert fs t record 42).1 t (.vStr "42"))
    ∧ ∀ n : Nat, looseEq (.vNum n) (.vStr (natToStr n)) = true := by
  refine ⟨fun fs t record hids => ?_, looseEq_num_str⟩
  unfold dbFindById
  apply find?_pred_eq
  intro r hr
  have hs : dbRead (dbInsert fs t record 42).1 t
      = dbRead fs t ++ [(dbInsert fs t record 42).2] := by
    simp [dbInsert, dbRead_dbWrite_self]
  rw [hs] at hr
  have hnum : ∃ m : Nat, getField r "id" = some (.vNum m) := by
    rcases List.mem_append.mp hr with hmem | hmem
    · exact hids r hmem
    · refine ⟨42, ?_⟩
      have hre : r = (dbInsert fs t record 42).2 := by simpa using hmem
      rw [hre, show (dbInsert fs t record 42).2
          = setField (setField record "id" (.vNum 42)) "created_at"
              (.vStr (toISOString 42)) from rfl,
        getField_setField_other _ _ _ _ (by decide), getField_setField_same]
  obtain ⟨m, hm⟩ := hnum
  by_cases hm42 : m = 42
  · subst hm42
    simp [idMatches, hm]
    decide
  · have h1 : looseEq (.vNum m) (.vNum 42) = false := by
      simp [looseEq, hm42]
    have h2 : looseEq (.vNum m) (.vStr "42") = false := by
      have : strToNat "42" = some 42 := rfl
      simp [looseEq, this]
      omega
    simp [idMatches, hm, h1, h2]

/-- Witness for C5 on a table with one numeric-id record. -/
theorem findById_loose_equality_witness :
    dbFindById (dbInsert (dbWrite freshFS .products [[("id", Value.vNum 7)]])
        .products [("name", Value.vStr "B")] 42).1 .products (Value.vNum 42)
      = dbFindById (dbInsert (dbWrite freshFS .products [[("id", Value.vNum 7)]])
          .products [("name", Value.vStr "B")] 42).1 .products (Value.vStr "42")
    ∧ looseEq (Value.vNum 42) (Value.vStr (natToStr 42)) = true :=
  ⟨findById_loose_equality.1 (dbWrite freshFS .products [[("id", Value.vNum 7)]])
      .products [("name", Value.vStr "B")]
      (fun r hr => by
        have hread : dbRead (dbWrite freshFS .products [[("id", Value.vNum 7)]])
            .products = [[("id", Value.vNum 7)]] := rfl
        rw [hread] at hr
        have : r = [("id", Value.vNum 7)] := by simpa using hr
        exact ⟨7, by rw [this]; rfl⟩),
   findById_loose_equality.2 42⟩

/-- C7: when duplicate loosely-equal ids exist, `update` and `delete`
operate on the first matching record in array index order, leaving later
records — duplicates included — untouched. -/
theorem first_match_semantics (fs : FS) (t : Table) (id : Value)
    (updates : Record) (now : Nat) (pre : List Record) (r : Record)
    (post : List Record)
    (hread : dbRead fs t = pre ++ r :: post)
    (hpre : ∀ x ∈ pre, idMatches x id = false)
    (hr : idMatches r id = true) :
    dbRead (dbUpdate fs t id updates now).1 t
        = pre ++ setField (mergeFields r updates) "updated_at"
            (.vStr (toISOString now)) :: post
    ∧ (dbUpdate fs t id updates now).2
        = some (setField (mergeFields r updates) "updated_at"
            (.vStr (toISOString now)))
    ∧ dbRead (dbDelete fs t id).1 t = pre ++ post
    ∧ (dbDelete fs t id).2 = true := by
  have hu := updateList_append pre r post id updates (toISOString now) hpre hr
  have hdel := deleteFirst_append pre r post id hpre hr
  refine ⟨?_, ?_, ?_, ?_⟩ <;>
    simp [dbUpdate, dbDelete, hread, hu, hdel, dbRead_dbWrite_self]

/-- Witness for C7: two records share id 1 behind a non-matching head;
only the earlier of the two is updated / deleted. -/
theorem first_match_semantics_witness :
    dbRead (dbDelete (dbWrite freshFS .products
        [[("id", Value.vNum 2)],
         [("id", Value.vNum 1), ("name", Value.vStr "B")],
         [("id", Value.vNum 1), ("name", Value.vStr "C")]])
        .products (Value.vNum 1)).1 .products
      = [[("id", Value.vNum 2)], [("id", Value.vNum 1), ("name", Value.vStr "C")]]
    ∧ (dbUpdate (dbWrite freshFS .products
        [[("id", Value.vNum 2)],
         [("id", Value.vNum 1), ("name", Value.vStr "B")],
         [("id", Value.vNum 1), ("name", Value.vStr "C")]])
        .products (Value.vNum 1) [("name", Value.vStr "D")] 9).2
      = some (setField (mergeFields
          [("id", Value.vNum 1), ("name", Value.vStr "B")]
          [("name", Value.vStr "D")]) "updated_at" (.vStr (toISOString 9))) := by
  have h := first_match_semantics (dbWrite freshFS .products
      [[("id", Value.vNum 2)],
       [("id", Value.vNum 1), ("name", Value.vStr "B")],
       [("id", Value.vNum 1), ("name", Value.vStr "C")]])
      .products (Value.vNum 1) [("name", Value.vStr "D")] 9
      [[("id", Value.vNum 2)]]
      [("id", Value.vNum 1), ("name", Value.vStr "B")]
      [[("id", Value.vNum 1), ("name", Value.vStr "C")]]
      (by decide) (by decide) (by decide)
  exact ⟨h.2.2.1, h.2.1⟩

/-- C8: initialization creates a file holding an empty array only when
the file is absent; a second bootstrap run never alters or truncates an
existing (including populated) file, and bootstrapping is idempotent. -/
theorem init_idempotent (fs : FS) (t : Table) :
    (fs t = .missing → initDB fs t = .table [])
    ∧ (fs t ≠ .missing → initDB fs t = fs t)
    ∧ initDB (initDB fs) = initDB fs := by
  refine ⟨fun h => by simp [initDB, h, initFile], fun h => ?_, ?_⟩
  · cases hc : fs t with
    | missing => exact absurd hc h
    | corrupt => simp [initDB, hc, initFile]
    | table rows => simp [initDB, hc, initFile]
  · funext u
    cases hc : fs u with
    | missing => simp [initDB, hc, initFile]
    | corrupt => simp [initDB, hc, initFile]
    | table rows => simp [initDB, hc, initFile]

/-- Witness for C8: a missing file is created empty; a populated file is
left untouched by a second run. -/
theorem init_idempotent_witness :
    initDB freshFS .products = .table []
    ∧ initDB (dbWrite freshFS .products [[("id", Value.vNum 1)]]) .products
        = dbWrite freshFS .products [[("id", Value.vNum 1)]] .products :=
  ⟨(init_idempotent freshFS .products).1 rfl,
   (init_idempotent (dbWrite freshFS .products [[("id", Value.vNum 1)]])
      .products).2.1 (by decide)⟩

/-- C9: starting from files that are absent or already hold arrays,
initialization makes every table file hold a JSON array, and this
invariant is preserved by `write`, `insert`, `update` and `delete`. -/
theorem array_invariant :
    (∀ fs : FS, (∀ t, fs t = .missing ∨ ∃ rows, fs t = .table rows) →
      allArrays (initDB fs))
    ∧ (∀ (fs : FS) (t : Table) (rows : List Record), allArrays fs →
        allArrays (dbWrite fs t rows))
    ∧ (∀ (fs : FS) (t : Table) (record : Record) (now : Nat), allArrays fs →
        allArrays (dbInsert fs t record now).1)
    ∧ (∀ (fs : FS) (t : Table) (id : Value) (updates : Record) (now : Nat),
        allArrays fs → allArrays (dbUpdate fs t id updates now).1)
    ∧ (∀ (fs : FS) (t : Table) (id : Value), allArrays fs →
        allArrays (dbDelete fs t id).1) := by
  have hw : ∀ (fs : FS) (t : Table) (rows : List Record), allArrays fs →
      allArrays (dbWrite fs t rows) := by
    intro fs t rows h u
    by_cases hu : u = t
    · exact ⟨rows, by simp [dbWrite, hu]⟩
    · obtain ⟨rs, hrs⟩ := h u
      exact ⟨rs, by simp [dbWrite, hu, hrs]⟩
  refine ⟨?_, hw, ?_, ?_, ?_⟩
  · intro fs h t
    rcases h t with hm | ⟨rows, hrows⟩
    · exact ⟨[], by simp [initDB, hm, initFile]⟩
    · exact ⟨rows, by simp [initDB, hrows, initFile]⟩
  · intro fs t record now h
    exact hw _ _ _ h
  · intro fs t id updates now h
    cases hu : updateList (dbRead fs t) id updates (toISOString now) with
    | none => simpa [dbUpdate, hu] using h
    | some p =>
      obtain ⟨rows, merged⟩ := p
      have he : (dbUpdate fs t id updates now).1 = dbWrite fs t rows := by
        simp [dbUpdate, hu]
      rw [he]
      exact hw _ _ _ h
  · intro fs t id h
    cases hd : deleteFirst (dbRead fs t) id with
    | none => simpa [dbDelete, hd] using h
    | some rows =>
      have he : (dbDelete fs t id).1 = dbWrite fs t rows := by
        simp [dbDelete, hd]
      rw [he]
      exact hw _ _ _ h

/-- Witness for C9: the invariant holds on a freshly initialized store
and survives an insert. -/
theorem array_invariant_witness :
    allArrays (initDB freshFS)
    ∧ allArrays (dbInsert (initDB freshFS) .products
        [("name", Value.vStr "A")] 1).1 := by
  have h0 : ∀ t : Table, freshFS t = .missing ∨ ∃ rows, freshFS t = .table rows :=
    fun _ => Or.inl rfl
  have h1 := array_invariant.1 freshFS h0
  exact ⟨h1, array_invariant.2.2.1 (initDB freshFS) .products
    [("name", Value.vStr "A")] 1 h1⟩

/-- C10: the merged record stored by `update` is the existing record
overridden by the partial update, overridden last by a fresh
`updated_at`; a caller-supplied `updated_at` never survives, while a
caller-supplied `id` or `created_at` does replace the stored value. -/
theorem update_merge_order (fs : FS) (t : Table) (id : Value)
    (updates : Record) (now : Nat) (pre : List Record) (old : Record)
    (post : List Record)
    (hread : dbRead fs t = pre ++ old :: post)
    (hpre : ∀ x ∈ pre, idMatches x id = false)
    (hold : idMatches old id = true)
    (hnd : noDupKeys updates) :
    (dbUpdate fs t id updates now).2
        = some (setField (mergeFields old updates) "updated_at"
            (.vStr (toISOString now)))
    ∧ getField (setField (mergeFields old updates) "updated_at"
          (.vStr (toISOString now))) "updated_at"
        = some (.vStr (toISOString now))
    ∧ (∀ k, k ≠ "updated_at" → ∀ v, getField updates k = some v →
        getField (setField (mergeFields old updates) "updated_at"
            (.vStr (toISOString now))) k = some v)
    ∧ (∀ k, k ≠ "updated_at" → getField updates k = none →
        getField (setField (mergeFields old updates) "updated_at"
            (.vStr (toISOString now))) k = getField old k) := by
  have hu := updateList_append pre old post id updates (toISOString now) hpre hold
  refine ⟨by simp [dbUpdate, hread, hu], getField_setField_same _ _ _,
    fun k hk v hv => ?_, fun k hk hv => ?_⟩
  · rw [getField_setField_other _ _ _ _ hk]
    exact getField_mergeFields_of_some old updates k v hnd hv
  · rw [getField_setField_other _ _ _ _ hk]
    exact getField_mergeFields_of_none old updates k hv

/-- Witness for C10: a partial update smuggling `updated_at` and `id`;
the stored `updated_at` is the fresh timestamp, the caller's `id` wins,
and an untouched field survives. -/
theorem update_merge_order_witness :
    (dbUpdate (dbWrite freshFS .products
        [[("id", Value.vNum 1), ("created_at", Value.vStr "C"),
          ("name", Value.vStr "A")]])
        .products (Value.vNum 1)
        [("updated_at", Value.vStr "HACK"), ("id", Value.vNum 9)] 4).2
      = some (setField (mergeFields
          [("id", Value.vNum 1), ("created_at", Value.vStr "C"),
           ("name", Value.vStr "A")]
          [("updated_at", Value.vStr "HACK"), ("id", Value.vNum 9)])
          "updated_at" (.vStr (toISOString 4)))
    ∧ getField (setField (mergeFields
          [("id", Value.vNum 1), ("created_at", Value.vStr "C"),
           ("name", Value.vStr "A")]
          [("updated_at", Value.vStr "HACK"), ("id", Value.vNum 9)])
          "updated_at" (.vStr (toISOString 4))) "updated_at"
        = some (.vStr (toISOString 4))
    ∧ getField (setField (mergeFields
          [("id", Value.vNum 1), ("created_at", Value.vStr "C"),
           ("name", Value.vStr "A")]
          [("updated_at", Value.vStr "HACK"), ("id", Value.vNum 9)])
          "updated_at" (.vStr (toISOString 4))) "id"
        = some (Value.vNum 9)
    ∧ getField (setField (mergeFields
          [("id", Value.vNum 1), ("created_at", Value.vStr "C"),
           ("name", Value.vStr "A")]
          [("updated_at", Value.vStr "HACK"), ("id", Value.vNum 9)])
          "updated_at" (.vStr (toISOString 4))) "name"
        = some (Value.vStr "A") := by
  have h := update_merge_order (dbWrite freshFS .products
      [[("id", Value.vNum 1), ("created_at", Value.vStr "C"),
        ("name", Value.vStr "A")]])
      .products (Value.vNum 1)
      [("updated_at", Value.vStr "HACK"), ("id", Value.vNum 9)] 4
      [] [("id", Value.vNum 1), ("created_at", Value.vStr "C"),
          ("name", Value.vStr "A")] []
      rfl (fun x hx => absurd hx (List.not_mem_nil x)) (by decide)
      (by unfold noDupKeys; decide)
  exact ⟨h.1, h.2.1,
    h.2.2.1 "id" (by decide) (Value.vNum 9) (by decide),
    (h.2.2.2 "name" (by decide) (by decide)).trans (by decide)⟩
